import Mathlib

set_option maxHeartbeats 1000000

/-!
Shallow embedding of the competition-results extractor of
`server/services/pdfParser.ts` (function `parsePDF`).  The extraction step is
a pure function of the document text and of the current date (the source reads
the current date with `new Date().toISOString().split('T')[0]`; here that
value is the explicit parameter `today`).  Strings are embedded as `List Char`;
each JavaScript regex used by the source is embedded as a hand-rolled matcher
with the leftmost-match, greedy-with-backtracking semantics of `String.match`.
The character class `\s` is embedded as its ASCII subset (space, tab, newline,
vertical tab, form feed, carriage return); `\d`, `[A-Z]`, `[a-z]` are the
ASCII ranges.  `parseInt` on the digit strings produced by the matchers is
embedded as decimal evaluation into `Nat`.
-/

/-- ASCII decimal digit, the regex class `\d`. -/
def isDigit (c : Char) : Bool := decide (48 ≤ c.toNat ∧ c.toNat ≤ 57)

/-- ASCII uppercase letter, the regex class `[A-Z]`. -/
def isUpper (c : Char) : Bool := decide (65 ≤ c.toNat ∧ c.toNat ≤ 90)

/-- ASCII lowercase letter, the regex class `[a-z]`. -/
def isLower (c : Char) : Bool := decide (97 ≤ c.toNat ∧ c.toNat ≤ 122)

/-- ASCII subset of the regex class `\s` (also the characters removed by
`String.prototype.trim`). -/
def isSpace (c : Char) : Bool :=
  decide (c = ' ' ∨ c = '\t' ∨ c = '\n' ∨ c = '\x0b' ∨ c = '\x0c' ∨ c = '\r')

/-- Embedding of `text.split('\n')`: JavaScript split never returns an empty
list (splitting the empty string yields one empty field). -/
def splitLines : List Char → List (List Char)
  | [] => [[]]
  | c :: cs =>
    match splitLines cs with
    | [] => [[]]
    | l :: ls => if c = '\n' then [] :: l :: ls else (c :: l) :: ls

/-- Embedding of `line.trim()`. -/
def trim (l : List Char) : List Char :=
  ((l.dropWhile isSpace).reverse.dropWhile isSpace).reverse

/-- Embedding of `text.split('\n').filter(line => line.trim().length > 0)`:
the kept lines are the original, untrimmed lines. -/
def linesOf (text : List Char) : List (List Char) :=
  (splitLines text).filter (fun l => !(trim l).isEmpty)

/-- Embedding of `parseInt` on a string of decimal digits. -/
def parseDigits (ds : List Char) : Nat :=
  ds.foldl (fun n c => n * 10 + (c.toNat - 48)) 0

/-- Leftmost-match search: `String.match` tries the pattern at every start
position from left to right and returns the first success. -/
def firstMatch {α : Type} (m : List Char → Option α) : List Char → Option α
  | [] => m []
  | c :: cs =>
    match m (c :: cs) with
    | some r => some r
    | none => firstMatch m cs

/-- Try to read exactly `k` decimal digits at the start of `s`; on success
return them together with the rest of `s`. -/
def digitsTake (k : Nat) (s : List Char) : Option (List Char × List Char) :=
  if (s.take k).length = k ∧ (s.take k).all isDigit = true then
    some (s.take k, s.drop k)
  else none

/-- Greedy counted repetition of `\d` with backtracking: try the digit counts
in `ks` in order (largest first for greediness) and keep the first one whose
continuation succeeds. -/
def tryCounts (ks : List Nat) (s : List Char)
    (cont : List Char → List Char → Option (List Char)) : Option (List Char) :=
  match ks with
  | [] => none
  | k :: ks' =>
    match digitsTake k s with
    | some (ds, rest) =>
      match cont ds rest with
      | some r => some r
      | none => tryCounts ks' s cont
    | none => tryCounts ks' s cont

/-- One alternative of the date regex
`\d{1,2}\/\d{1,2}\/\d{2,4}|\d{1,2}-\d{1,2}-\d{2,4}`, anchored at the start of
`s`, with separator `sep`; returns the whole match (`match[0]`). -/
def dateAlt (sep : Char) (s : List Char) : Option (List Char) :=
  tryCounts [2, 1] s fun d1 r1 =>
    match r1 with
    | c :: r2 =>
      if c = sep then
        tryCounts [2, 1] r2 fun d2 r3 =>
          match r3 with
          | c2 :: r4 =>
            if c2 = sep then
              tryCounts [4, 3, 2] r4 fun d3 _ => some (d1 ++ c :: (d2 ++ c2 :: d3))
            else none
          | [] => none
      else none
    | [] => none

/-- The date regex at one start position: the `/`-separated alternative is
tried before the `-`-separated one. -/
def dateAt (s : List Char) : Option (List Char) :=
  match dateAlt '/' s with
  | some d => some d
  | none => dateAlt '-' s

/-- Embedding of `line.match(/\d{1,2}\/\d{1,2}\/\d{2,4}|\d{1,2}-\d{1,2}-\d{2,4}/)`,
returning `match[0]`. -/
def dateMatch (l : List Char) : Option (List Char) := firstMatch dateAt l

/-- The weight regex `(\d{2,3})\s*lbs?/i` anchored at one start position with a
fixed digit count `k`; returns the captured digit group. -/
def weightTry (k : Nat) (s : List Char) : Option (List Char) :=
  if (s.take k).length = k ∧ (s.take k).all isDigit = true then
    match (s.drop k).dropWhile isSpace with
    | c1 :: c2 :: _ =>
      if (c1 = 'l' ∨ c1 = 'L') ∧ (c2 = 'b' ∨ c2 = 'B') then some (s.take k)
      else none
    | _ => none
  else none

/-- The weight regex at one start position: the greedy `\d{2,3}` tries three
digits before two. -/
def weightAt (s : List Char) : Option (List Char) :=
  match weightTry 3 s with
  | some d => some d
  | none => weightTry 2 s

/-- Embedding of `line.match(/(\d{2,3})\s*lbs?/i)`, returning the digit
group `match[1]`. -/
def weightMatch (l : List Char) : Option (List Char) := firstMatch weightAt l

/-- The name regex `([A-Z][a-z]+\s+[A-Z][a-z]+)` at one start position; all
adjacent character classes are disjoint, so the greedy runs need no
backtracking.  Returns the whole match (equal to the captured group). -/
def nameAt : List Char → Option (List Char)
  | [] => none
  | c1 :: r0 =>
    if isUpper c1 = true then
      if r0.takeWhile isLower = [] then none
      else if (r0.dropWhile isLower).takeWhile isSpace = [] then none
      else
        match (r0.dropWhile isLower).dropWhile isSpace with
        | c2 :: r3 =>
          if isUpper c2 = true then
            if r3.takeWhile isLower = [] then none
            else
              some (c1 :: (r0.takeWhile isLower ++
                ((r0.dropWhile isLower).takeWhile isSpace ++ c2 :: r3.takeWhile isLower)))
          else none
        | [] => none
    else none

/-- Embedding of `resultLine.match(/([A-Z][a-z]+\s+[A-Z][a-z]+)/)`, returning
`match[1]`. -/
def nameMatch (l : List Char) : Option (List Char) := firstMatch nameAt l

/-- The placement regex `(\d+)(st|nd|rd|th)` at one start position; returns the
digit group. -/
def placementAt (s : List Char) : Option (List Char) :=
  if s.takeWhile isDigit = [] then none
  else
    match s.dropWhile isDigit with
    | a :: b :: _ =>
      if (a = 's' ∧ b = 't') ∨ (a = 'n' ∧ b = 'd') ∨ (a = 'r' ∧ b = 'd') ∨ (a = 't' ∧ b = 'h')
      then some (s.takeWhile isDigit)
      else none
    | _ => none

/-- Embedding of `resultLine.match(/(\d+)(st|nd|rd|th)/)`. -/
def placementMatch (l : List Char) : Option (List Char) := firstMatch placementAt l

/-- The record regex `(\d+)-(\d+)` at one start position; returns the two digit
groups. -/
def recordAt (s : List Char) : Option (List Char × List Char) :=
  if s.takeWhile isDigit = [] then none
  else
    match s.dropWhile isDigit with
    | '-' :: r2 =>
      if r2.takeWhile isDigit = [] then none
      else some (s.takeWhile isDigit, r2.takeWhile isDigit)
    | _ => none

/-- Embedding of `resultLine.match(/(\d+)-(\d+)/)`. -/
def recordMatch (l : List Char) : Option (List Char × List Char) := firstMatch recordAt l

/-- Case-insensitive literal `pin` at the start of `s`. -/
def pinHere (s : List Char) : Bool :=
  match s with
  | p :: i :: n :: _ =>
    (p == 'p' || p == 'P') && (i == 'i' || i == 'I') && (n == 'n' || n == 'N')
  | _ => false

/-- Case-insensitive literal `fall` at the start of `s`. -/
def fallHere (s : List Char) : Bool :=
  match s with
  | f :: a :: l1 :: l2 :: _ =>
    (f == 'f' || f == 'F') && (a == 'a' || a == 'A') &&
    (l1 == 'l' || l1 == 'L') && (l2 == 'l' || l2 == 'L')
  | _ => false

/-- Embedding of `resultLine.match(/pin|fall/i)` viewed as a hit test (the
source only asks whether the match exists). -/
def hasPin : List Char → Bool
  | [] => false
  | c :: cs => pinHere (c :: cs) || fallHere (c :: cs) || hasPin cs

/-- The fallback weight regex `(\d{2,3})` at one start position (greedy: three
digits before two, nothing required after). -/
def fbWeightAt (s : List Char) : Option (List Char) :=
  match digitsTake 3 s with
  | some (ds, _) => some ds
  | none =>
    match digitsTake 2 s with
    | some (ds, _) => some ds
    | none => none

/-- Embedding of `line.match(/(\d{2,3})/)` in the fallback pass. -/
def fbWeightMatch (l : List Char) : Option (List Char) := firstMatch fbWeightAt l

/-- Embedding of the `athletes` element type of `ParsedCompetitionData`:
optional fields are `undefined` (`none`) when the source omits them. -/
structure AthleteRecord where
  name : List Char
  weightClass : List Char
  placement : Option Nat
  wins : Option Nat
  losses : Option Nat
  pins : Option Nat
  takedowns : Option Nat
  deriving Repr, DecidableEq

/-- Embedding of `ParsedCompetitionData` as returned by `parsePDF` (the
`results` field stores the split raw lines). -/
structure ExtractionResult where
  athletes : List AthleteRecord
  competitionName : List Char
  date : List Char
  results : List (List Char)
  deriving Repr, DecidableEq

/-- The athlete object pushed by the primary weight-anchored pass for a window
line `l` whose name match is `nm`, under weight class `wc` (source lines
67-76). -/
def primaryRec (wc l nm : List Char) : AthleteRecord :=
  { name := nm
    weightClass := wc
    placement := (placementMatch l).map parseDigits
    wins := (recordMatch l).map (fun r => parseDigits r.1)
    losses := (recordMatch l).map (fun r => parseDigits r.2)
    pins := some (if hasPin l = true then 1 else 0)
    takedowns := some 0 }

/-- The minimal athlete object pushed by the fallback pass (source lines
96-99): every field other than name and weight class is left `undefined`. -/
def fallbackRec (nm d : List Char) : AthleteRecord :=
  { name := nm
    weightClass := d ++ (" lbs").toList
    placement := none
    wins := none
    losses := none
    pins := none
    takedowns := none }

/-- The inner lookahead loop of the primary pass (source lines 58-84): scan
the window lines in order, and for each name match push the athlete unless an
entry with the same name and weight class is already present. -/
def scanWindow (wc : List Char) : List (List Char) → List AthleteRecord → List AthleteRecord
  | [], acc => acc
  | l :: ls, acc =>
    match nameMatch l with
    | none => scanWindow wc ls acc
    | some nm =>
      if acc.any (fun a => decide (a.name = nm ∧ a.weightClass = wc)) = true
      then scanWindow wc ls acc
      else scanWindow wc ls (acc ++ [primaryRec wc l nm])

/-- The outer loop of the primary pass (source lines 49-86): at each line
matching the weight regex, open a lookahead window over the following lines
`j = i+1 .. min(i+10, length)-1`, i.e. the next nine lines. -/
def primaryLoop : List (List Char) → List AthleteRecord → List AthleteRecord
  | [], acc => acc
  | l :: rest, acc =>
    match weightMatch l with
    | some d => primaryLoop rest (scanWindow (d ++ (" lbs").toList) (rest.take 9) acc)
    | none => primaryLoop rest acc

/-- The fallback pass (source lines 91-101): every line with both a name match
and a bare 2-3-digit match pushes a minimal record, with no duplicate check. -/
def fallbackLoop : List (List Char) → List AthleteRecord → List AthleteRecord
  | [], acc => acc
  | l :: rest, acc =>
    match nameMatch l, fbWeightMatch l with
    | some nm, some d => fallbackLoop rest (acc ++ [fallbackRec nm d])
    | _, _ => fallbackLoop rest acc

/-- The assembled athletes list (source lines 49-102): the fallback pass runs
on the array built by the primary pass exactly when that array is empty. -/
def athletesOf (lines : List (List Char)) : List AthleteRecord :=
  if primaryLoop lines [] = [] then fallbackLoop lines (primaryLoop lines [])
  else primaryLoop lines []

/-- Competition name before the default fallback (source lines 33-36): the
trimmed first line, or the empty string when there are no lines. -/
def compNameOf (lines : List (List Char)) : List Char :=
  match lines with
  | [] => []
  | l :: _ => trim l

/-- The date scan (source lines 38-45): the first line whose date regex
matches, among the lines given, yields `match[0]`. -/
def findDate : List (List Char) → Option (List Char)
  | [] => none
  | l :: ls =>
    match dateMatch l with
    | some d => some d
    | none => findDate ls

/-- The returned date (source lines 38-45 and 107): the first date match in
the first ten lines, or `today` when none is found (the `date || ...` default
also fires if the match were empty, which the proofs show cannot happen). -/
def dateOf (today : List Char) (lines : List (List Char)) : List Char :=
  match findDate (lines.take 10) with
  | some d => if d = [] then today else d
  | none => today

/-- The extraction step of `parsePDF` (source lines 23-109) as a pure function
of the document text and of the current date `today`. -/
def extract (today text : List Char) : ExtractionResult :=
  { athletes := athletesOf (linesOf text)
    competitionName :=
      if compNameOf (linesOf text) = [] then ("Wrestling Competition").toList
      else compNameOf (linesOf text)
    date := dateOf today (linesOf text)
    results := linesOf text }

/-- Checker for the exact shape `[A-Z][a-z]+\s+[A-Z][a-z]+` of a whole string:
one uppercase letter, a nonempty lowercase run, a nonempty whitespace run, one
uppercase letter, and a nonempty lowercase run reaching the end. -/
def nameShapeB (nm : List Char) : Bool :=
  match nm with
  | [] => false
  | u1 :: rest =>
    isUpper u1 && !(rest.takeWhile isLower).isEmpty &&
      (!((rest.dropWhile isLower).takeWhile isSpace).isEmpty &&
        match (rest.dropWhile isLower).dropWhile isSpace with
        | u2 :: rest2 =>
          isUpper u2 && !(rest2.takeWhile isLower).isEmpty &&
            (rest2.dropWhile isLower).isEmpty
        | [] => false)

/-- Declarative reading of the weight marker actually implemented by the
source: the line contains a 2-3-digit run followed by optional whitespace and
a case-insensitive `lb`. -/
def MarkerIn (line : List Char) : Prop :=
  ∃ pre ds ws c1 c2 suf, line = pre ++ (ds ++ (ws ++ c1 :: c2 :: suf)) ∧
    (ds.length = 2 ∨ ds.length = 3) ∧ (∀ c ∈ ds, isDigit c = true) ∧
    (∀ c ∈ ws, isSpace c = true) ∧ (c1 = 'l' ∨ c1 = 'L') ∧ (c2 = 'b' ∨ c2 = 'B')

/-- Modelled from the spec: the claimed weight marker is a 1-3-digit number
followed by an OPTIONAL `lb`/`lbs` suffix; with the suffix optional, such a
marker exists in a line exactly when the line contains a digit. -/
def specWeightMarkerB (line : List Char) : Bool := line.any isDigit

/-- Modelled from the spec: the digit group of the claimed weight marker
(`\d{1,3}` greedy, no required suffix) at one start position. -/
def specWeightAt (s : List Char) : Option (List Char) :=
  if (s.takeWhile isDigit).take 3 = [] then none
  else some ((s.takeWhile isDigit).take 3)

/-- Modelled from the spec: the primary pass as claim C5 describes it, with
the spec's weight marker and a lookahead window spanning the TEN lines
following the marker line. -/
def specPrimaryLoop : List (List Char) → List AthleteRecord → List AthleteRecord
  | [], acc => acc
  | l :: rest, acc =>
    match firstMatch specWeightAt l with
    | some d => specPrimaryLoop rest (scanWindow (d ++ (" lbs").toList) (rest.take 10) acc)
    | none => specPrimaryLoop rest acc

/-- Input of the primary-pass scenario of claim C7. -/
def sampleT7 : List Char := ("Regional Duals\n152 lbs\nJohn Smith 5-2 1st pin").toList

/-- Input of the fallback-pass scenario of claim C8. -/
def sampleT8 : List Char := ("Tournament Sheet\nJohn Smith 152").toList

/-- Input whose fallback pass pushes the same (name, weightClass) twice. -/
def sampleDup : List Char := ("John Smith 152\nJohn Smith 152").toList

/-- Input with a date line, used to pin the date-extraction behaviour. -/
def sampleDate : List Char := ("Regional Duals 3/14/2024\nother content").toList

/-- Input whose only name sits on the tenth line after the weight marker:
inside the window claim C5 describes, outside the window the source scans. -/
def sampleWin : List Char := ("45 lbs\na\nb\nc\nd\ne\nf\ng\nh\ni\nJohn Smith").toList

theorem firstMatch_cons_some {α : Type} {m : List Char → Option α} {c : Char} {cs : List Char}
    {r : α} (h : m (c :: cs) = some r) : firstMatch m (c :: cs) = some r := by
  simp [firstMatch, h]

theorem firstMatch_cons_none {α : Type} {m : List Char → Option α} {c : Char} {cs : List Char}
    (h : m (c :: cs) = none) : firstMatch m (c :: cs) = firstMatch m cs := by
  simp [firstMatch, h]

theorem firstMatch_some {α : Type} {m : List Char → Option α} :
    ∀ {l : List Char} {r : α}, firstMatch m l = some r →
      ∃ pre s, l = pre ++ s ∧ m s = some r := by
  intro l
  induction l with
  | nil => intro r h; exact ⟨[], [], rfl, h⟩
  | cons c cs ih =>
    intro r h
    cases hm : m (c :: cs) with
    | some r' =>
      rw [firstMatch_cons_some hm] at h
      exact ⟨[], c :: cs, rfl, by rw [hm, h]⟩
    | none =>
      rw [firstMatch_cons_none hm] at h
      obtain ⟨pre, s, hls, hs⟩ := ih h
      exact ⟨c :: pre, s, by rw [List.cons_append, hls], hs⟩

theorem firstMatch_isSome {α : Type} {m : List Char → Option α} {s : List Char} {r : α}
    (h : m s = some r) : ∀ (pre : List Char), (firstMatch m (pre ++ s)).isSome = true := by
  intro pre
  induction pre with
  | nil =>
    cases s with
    | nil => simp [firstMatch, h]
    | cons c cs => rw [List.nil_append, firstMatch_cons_some h]; rfl
  | cons p pre ih =>
    cases hm : m (p :: (pre ++ s)) with
    | some r' => rw [List.cons_append, firstMatch_cons_some hm]; rfl
    | none => rw [List.cons_append, firstMatch_cons_none hm]; exact ih

theorem takeWhileMem {p : Char → Bool} :
    ∀ {l : List Char} {x : Char}, x ∈ l.takeWhile p → p x = true := by
  intro l
  induction l with
  | nil => intro x hx; simp [List.takeWhile] at hx
  | cons a t ih =>
    intro x hx
    by_cases ha : p a = true
    · rw [List.takeWhile_cons_of_pos ha] at hx
      rcases List.mem_cons.mp hx with h | h
      · rw [h]; exact ha
      · exact ih h
    · rw [List.takeWhile_cons_of_neg (by simpa using ha)] at hx
      simp at hx

theorem takeWhileAllEq {p : Char → Bool} :
    ∀ {l : List Char}, (∀ x ∈ l, p x = true) →
      l.takeWhile p = l ∧ l.dropWhile p = [] := by
  intro l
  induction l with
  | nil => intro _; simp
  | cons a t ih =>
    intro h
    have ha := h a (List.mem_cons_self a t)
    have ht := ih (fun x hx => h x (List.mem_cons_of_mem a hx))
    rw [List.takeWhile_cons_of_pos ha, List.dropWhile_cons_of_pos ha, ht.1]
    exact ⟨rfl, ht.2⟩

theorem takeWhileApp {p : Char → Bool} {y : Char} {t : List Char} (hy : p y = false) :
    ∀ {xs : List Char}, (∀ x ∈ xs, p x = true) →
      (xs ++ y :: t).takeWhile p = xs ∧ (xs ++ y :: t).dropWhile p = y :: t := by
  intro xs
  induction xs with
  | nil =>
    intro _
    rw [List.nil_append, List.takeWhile_cons_of_neg (by simp [hy]),
      List.dropWhile_cons_of_neg (by simp [hy])]
    exact ⟨rfl, rfl⟩
  | cons a xs ih =>
    intro h
    have ha := h a (List.mem_cons_self a xs)
    have hx := ih (fun x hx => h x (List.mem_cons_of_mem a hx))
    rw [List.cons_append, List.takeWhile_cons_of_pos ha, List.dropWhile_cons_of_pos ha, hx.1]
    exact ⟨rfl, hx.2⟩

theorem takeLenApp : ∀ (xs ys : List Char), (xs ++ ys).take xs.length = xs := by
  intro xs ys
  induction xs with
  | nil => simp
  | cons a xs ih => simp [ih]

theorem dropLenApp : ∀ (xs ys : List Char), (xs ++ ys).drop xs.length = ys := by
  intro xs ys
  induction xs with
  | nil => simp
  | cons a xs ih => simp [ih]

theorem isSpace_cases {c : Char} (h : isSpace c = true) :
    c = ' ' ∨ c = '\t' ∨ c = '\n' ∨ c = '\x0b' ∨ c = '\x0c' ∨ c = '\r' := by
  simpa [isSpace] using h

theorem isUpper_space {c : Char} (h : isUpper c = true) : isSpace c = false := by
  cases hs : isSpace c
  · rfl
  · rcases isSpace_cases hs with h' | h' | h' | h' | h' | h' <;>
      rw [h'] at h <;> exact absurd h (by decide)

theorem isSpace_lower {c : Char} (h : isSpace c = true) : isLower c = false := by
  rcases isSpace_cases h with h' | h' | h' | h' | h' | h' <;> rw [h'] <;> decide

theorem ell_space {c : Char} (h : c = 'l' ∨ c = 'L') : isSpace c = false := by
  rcases h with h | h <;> rw [h] <;> decide

theorem scanWindow_mem {wc : List Char} :
    ∀ {win : List (List Char)} {acc : List AthleteRecord} {a : AthleteRecord},
      a ∈ scanWindow wc win acc →
      a ∈ acc ∨ ∃ l nm, nameMatch l = some nm ∧ a = primaryRec wc l nm := by
  intro win
  induction win with
  | nil => intro acc a h; exact Or.inl h
  | cons l ls ih =>
    intro acc a h
    rw [scanWindow] at h
    split at h
    · exact ih h
    next nm hn =>
      split at h
      · exact ih h
      · rcases ih h with hin | hex
        · rcases List.mem_append.mp hin with hin' | hin'
          · exact Or.inl hin'
          · exact Or.inr ⟨l, nm, hn, List.mem_singleton.mp hin'⟩
        · exact Or.inr hex

theorem primaryLoop_mem :
    ∀ {rest : List (List Char)} {acc : List AthleteRecord} {a : AthleteRecord},
      a ∈ primaryLoop rest acc →
      a ∈ acc ∨ ∃ wc l nm, nameMatch l = some nm ∧ a = primaryRec wc l nm := by
  intro rest
  induction rest with
  | nil => intro acc a h; exact Or.inl h
  | cons l ls ih =>
    intro acc a h
    rw [primaryLoop] at h
    split at h
    next d hw =>
      rcases ih h with hin | hex
      · rcases scanWindow_mem hin with hin' | ⟨l', nm, hn, ha⟩
        · exact Or.inl hin'
        · exact Or.inr ⟨d ++ (" lbs").toList, l', nm, hn, ha⟩
      · exact Or.inr hex
    · exact ih h

theorem fallbackLoop_mem :
    ∀ {rest : List (List Char)} {acc : List AthleteRecord} {a : AthleteRecord},
      a ∈ fallbackLoop rest acc →
      a ∈ acc ∨ ∃ l nm d, nameMatch l = some nm ∧ fbWeightMatch l = some d ∧ a = fallbackRec nm d := by
  intro rest
  induction rest with
  | nil => intro acc a h; exact Or.inl h
  | cons l ls ih =>
    intro acc a h
    rw [fallbackLoop] at h
    split at h
    next nm d hn hw =>
      rcases ih h with hin | hex
      · rcases List.mem_append.mp hin with hin' | hin'
        · exact Or.inl hin'
        · exact Or.inr ⟨l, nm, d, hn, hw, List.mem_singleton.mp hin'⟩
      · exact Or.inr hex
    next _ _ => exact ih h

theorem athletesOf_mem {lines : List (List Char)} {a : AthleteRecord}
    (h : a ∈ athletesOf lines) :
    (∃ wc l nm, nameMatch l = some nm ∧ a = primaryRec wc l nm) ∨
    (∃ l nm d, nameMatch l = some nm ∧ fbWeightMatch l = some d ∧ a = fallbackRec nm d) := by
  rw [athletesOf] at h
  by_cases hp : primaryLoop lines [] = []
  · rw [if_pos hp] at h
    rcases fallbackLoop_mem h with hin | hex
    · rw [hp] at hin; simp at hin
    · exact Or.inr hex
  · rw [if_neg hp] at h
    rcases primaryLoop_mem h with hin | hex
    · simp at hin
    · exact Or.inl hex

theorem nodup_snoc {α : Type} {l : List α} {x : α} (hl : l.Nodup) (hx : x ∉ l) :
    (l ++ [x]).Nodup := by
  rw [List.nodup_append]
  exact ⟨hl, List.nodup_singleton x,
    fun a ha hax => hx (by rwa [List.mem_singleton.mp hax] at ha)⟩

theorem scanWindow_nodup {wc : List Char} :
    ∀ {win : List (List Char)} {acc : List AthleteRecord},
      (acc.map (fun a => (a.name, a.weightClass))).Nodup →
      ((scanWindow wc win acc).map (fun a => (a.name, a.weightClass))).Nodup := by
  intro win
  induction win with
  | nil => intro acc h; exact h
  | cons l ls ih =>
    intro acc h
    rw [scanWindow]
    split
    · exact ih h
    next nm hn =>
      split
      · exact ih h
      next hd =>
        refine ih ?_
        rw [List.map_append, List.map_singleton]
        refine nodup_snoc h ?_
        intro hmem
        rcases List.mem_map.mp hmem with ⟨b, hb, hk⟩
        refine hd (List.any_eq_true.mpr ⟨b, hb, ?_⟩)
        have h1 : b.name = nm := by
          have := congrArg Prod.fst hk
          simpa [primaryRec] using this
        have h2 : b.weightClass = wc := by
          have := congrArg Prod.snd hk
          simpa [primaryRec] using this
        exact decide_eq_true ⟨h1, h2⟩

theorem primaryLoop_nodup :
    ∀ {rest : List (List Char)} {acc : List AthleteRecord},
      (acc.map (fun a => (a.name, a.weightClass))).Nodup →
      ((primaryLoop rest acc).map (fun a => (a.name, a.weightClass))).Nodup := by
  intro rest
  induction rest with
  | nil => intro acc h; exact h
  | cons l ls ih =>
    intro acc h
    rw [primaryLoop]
    split
    · exact ih (scanWindow_nodup h)
    · exact ih h

theorem tryCounts_some {ks : List Nat} {s : List Char}
    {cont : List Char → List Char → Option (List Char)} {r : List Char} :
    tryCounts ks s cont = some r → ∃ ds rest, cont ds rest = some r := by
  induction ks with
  | nil => intro h; simp [tryCounts] at h
  | cons k ks ih =>
    intro h
    rw [tryCounts] at h
    split at h
    next ds rest heq =>
      split at h
      next r' heq2 => exact ⟨ds, rest, by rw [heq2, h]⟩
      next heq2 => exact ih h
    next heq => exact ih h

theorem dateAlt_ne_nil {sep : Char} {s d : List Char} (h : dateAlt sep s = some d) :
    d ≠ [] := by
  rw [dateAlt] at h
  obtain ⟨d1, r1, h1⟩ := tryCounts_some h
  split at h1
  next c r2 =>
    split at h1
    · obtain ⟨d2, r3, h2⟩ := tryCounts_some h1
      split at h2
      next c2 r4 =>
        split at h2
        · obtain ⟨d3, r5, h3⟩ := tryCounts_some h2
          have hd' : d1 ++ c :: (d2 ++ c2 :: d3) = d := by simpa using h3
          rw [← hd']
          cases d1 <;> simp
        · simp at h2
      · simp at h2
    · simp at h1
  · simp at h1

theorem dateAt_ne_nil {s d : List Char} (h : dateAt s = some d) : d ≠ [] := by
  rw [dateAt] at h
  split at h
  next d' h1 =>
    have : d' = d := by simpa using h
    rw [← this]
    exact dateAlt_ne_nil h1
  next h1 => exact dateAlt_ne_nil h

theorem dateMatch_ne_nil {l d : List Char} (h : dateMatch l = some d) : d ≠ [] := by
  obtain ⟨pre, s, _, hs⟩ := firstMatch_some h
  exact dateAt_ne_nil hs

theorem findDate_eq_none : ∀ {ls : List (List Char)},
    (∀ l ∈ ls, dateMatch l = none) → findDate ls = none := by
  intro ls
  induction ls with
  | nil => intro _; rfl
  | cons l ls ih =>
    intro h
    rw [findDate, h l (List.mem_cons_self l ls)]
    exact ih (fun l' hl' => h l' (List.mem_cons_of_mem l hl'))

theorem findDate_append_some : ∀ {ls1 : List (List Char)} {l : List Char}
    {ls2 : List (List Char)} {d : List Char},
    (∀ l' ∈ ls1, dateMatch l' = none) → dateMatch l = some d →
    findDate (ls1 ++ l :: ls2) = some d := by
  intro ls1
  induction ls1 with
  | nil => intro l ls2 d _ h2; rw [List.nil_append, findDate, h2]
  | cons a ls1 ih =>
    intro l ls2 d h1 h2
    rw [List.cons_append, findDate, h1 a (List.mem_cons_self a ls1)]
    exact ih (fun l' hl' => h1 l' (List.mem_cons_of_mem a hl')) h2

theorem ne_nil_isEmpty {α : Type} {l : List α} (h : l ≠ []) : l.isEmpty = false := by
  cases l with
  | nil => exact absurd rfl h
  | cons a t => rfl

theorem nameShapeB_build {c1 c2 : Char} {l1 ws l2 : List Char}
    (h1 : isUpper c1 = true) (h2 : l1 ≠ []) (hl1 : ∀ x ∈ l1, isLower x = true)
    (h3 : ws ≠ []) (hws : ∀ x ∈ ws, isSpace x = true)
    (h4 : isUpper c2 = true) (h5 : l2 ≠ []) (hl2 : ∀ x ∈ l2, isLower x = true) :
    nameShapeB (c1 :: (l1 ++ (ws ++ c2 :: l2))) = true := by
  cases ws with
  | nil => exact absurd rfl h3
  | cons w ws' =>
    have hw : isSpace w = true := hws w (List.mem_cons_self w ws')
    rw [nameShapeB]
    simp only [List.cons_append]
    have e1 := takeWhileApp (p := isLower) (y := w) (t := ws' ++ c2 :: l2)
      (isSpace_lower hw) hl1
    rw [e1.1, e1.2]
    have e2 := takeWhileApp (p := isSpace) (y := c2) (t := l2) (isUpper_space h4) hws
    simp only [List.cons_append] at e2
    rw [e2.1, e2.2]
    have e3 := takeWhileAllEq hl2
    simp [h1, h4, e3.1, e3.2, ne_nil_isEmpty h2, ne_nil_isEmpty h5]

theorem nameAt_shape {s nm : List Char} (h : nameAt s = some nm) : nameShapeB nm = true := by
  cases s with
  | nil => simp [nameAt] at h
  | cons c1 r0 =>
    rw [nameAt] at h
    split at h
    next h1 =>
      split at h
      next => simp at h
      next h2 =>
        split at h
        next => simp at h
        next h3 =>
          split at h
          next c2 r3 heq =>
            split at h
            next h4 =>
              split at h
              next => simp at h
              next h5 =>
                have hnm := Option.some.inj h
                rw [← hnm]
                exact nameShapeB_build h1 h2 (fun x hx => takeWhileMem hx)
                  h3 (fun x hx => takeWhileMem hx) h4 h5 (fun x hx => takeWhileMem hx)
            next => simp at h
          next => simp at h
    next => simp at h

theorem weightTry_some {k : Nat} {s ds : List Char} (h : weightTry k s = some ds) :
    ∃ ws c1 c2 suf, s = ds ++ (ws ++ c1 :: c2 :: suf) ∧ ds.length = k ∧
      (∀ c ∈ ds, isDigit c = true) ∧ (∀ c ∈ ws, isSpace c = true) ∧
      (c1 = 'l' ∨ c1 = 'L') ∧ (c2 = 'b' ∨ c2 = 'B') := by
  rw [weightTry] at h
  split at h
  next hcond =>
    split at h
    next c1 c2 tail heq =>
      split at h
      next hlet =>
        have hds : s.take k = ds := Option.some.inj h
        refine ⟨(s.drop k).takeWhile isSpace, c1, c2, tail, ?_, ?_, ?_, ?_, hlet.1, hlet.2⟩
        · rw [← hds, ← heq, List.takeWhile_append_dropWhile, List.take_append_drop]
        · rw [← hds]; exact hcond.1
        · intro c hc
          rw [← hds] at hc
          exact List.all_eq_true.mp hcond.2 c hc
        · intro c hc
          exact takeWhileMem hc
      next => simp at h
    next => simp at h
  next => simp at h

theorem weightAt_some {s ds : List Char} (h : weightAt s = some ds) :
    ∃ ws c1 c2 suf, s = ds ++ (ws ++ c1 :: c2 :: suf) ∧
      (ds.length = 2 ∨ ds.length = 3) ∧ (∀ c ∈ ds, isDigit c = true) ∧
      (∀ c ∈ ws, isSpace c = true) ∧ (c1 = 'l' ∨ c1 = 'L') ∧ (c2 = 'b' ∨ c2 = 'B') := by
  rw [weightAt] at h
  split at h
  next d' h3 =>
    have : d' = ds := Option.some.inj h
    rw [this] at h3
    obtain ⟨ws, c1, c2, suf, hs, hk, hd, hw, hc1, hc2⟩ := weightTry_some h3
    exact ⟨ws, c1, c2, suf, hs, Or.inr hk, hd, hw, hc1, hc2⟩
  next h3 =>
    obtain ⟨ws, c1, c2, suf, hs, hk, hd, hw, hc1, hc2⟩ := weightTry_some h
    exact ⟨ws, c1, c2, suf, hs, Or.inl hk, hd, hw, hc1, hc2⟩

theorem weightTry_of_parts {ds ws : List Char} {c1 c2 : Char} {suf : List Char}
    (hd : ∀ c ∈ ds, isDigit c = true) (hw : ∀ c ∈ ws, isSpace c = true)
    (h1 : c1 = 'l' ∨ c1 = 'L') (h2 : c2 = 'b' ∨ c2 = 'B') :
    weightTry ds.length (ds ++ (ws ++ c1 :: c2 :: suf)) = some ds := by
  rw [weightTry]
  rw [takeLenApp, dropLenApp]
  rw [if_pos ⟨rfl, List.all_eq_true.mpr hd⟩]
  rw [(takeWhileApp (ell_space h1) hw).2]
  show (if (c1 = 'l' ∨ c1 = 'L') ∧ (c2 = 'b' ∨ c2 = 'B') then some ds else none) = some ds
  rw [if_pos ⟨h1, h2⟩]

theorem weightAt_of_parts {ds ws : List Char} {c1 c2 : Char} {suf : List Char}
    (hlen : ds.length = 2 ∨ ds.length = 3) (hd : ∀ c ∈ ds, isDigit c = true)
    (hw : ∀ c ∈ ws, isSpace c = true) (h1 : c1 = 'l' ∨ c1 = 'L') (h2 : c2 = 'b' ∨ c2 = 'B') :
    (weightAt (ds ++ (ws ++ c1 :: c2 :: suf))).isSome = true := by
  rw [weightAt]
  cases h3 : weightTry 3 (ds ++ (ws ++ c1 :: c2 :: suf)) with
  | some d => rfl
  | none =>
    rcases hlen with hk | hk
    · have := @weightTry_of_parts ds ws c1 c2 suf hd hw h1 h2
      rw [hk] at this
      rw [this]
      rfl
    · have := @weightTry_of_parts ds ws c1 c2 suf hd hw h1 h2
      rw [hk] at this
      rw [this] at h3
      simp at h3

theorem weightMatch_isSome_iff (line : List Char) :
    (weightMatch line).isSome = true ↔ MarkerIn line := by
  constructor
  · intro h
    obtain ⟨r, hr⟩ := Option.isSome_iff_exists.mp h
    obtain ⟨pre, s, hls, hs⟩ := firstMatch_some hr
    obtain ⟨ws, c1, c2, suf, hdec, hk, hd, hw, hc1, hc2⟩ := weightAt_some hs
    exact ⟨pre, r, ws, c1, c2, suf, by rw [hls, hdec], hk, hd, hw, hc1, hc2⟩
  · intro hm
    obtain ⟨pre, ds, ws, c1, c2, suf, hline, hk, hd, hw, hc1, hc2⟩ := hm
    have hz := @weightAt_of_parts ds ws c1 c2 suf hk hd hw hc1 hc2
    obtain ⟨r, hr⟩ := Option.isSome_iff_exists.mp hz
    rw [hline]
    exact firstMatch_isSome hr pre

theorem findDate_some_src : ∀ {ls : List (List Char)} {d : List Char},
    findDate ls = some d → ∃ l, dateMatch l = some d := by
  intro ls
  induction ls with
  | nil => intro d h; simp [findDate] at h
  | cons l ls ih =>
    intro d h
    rw [findDate] at h
    split at h
    next d' hm => exact ⟨l, hm.trans h⟩
    next => exact ih h

/-- Claim C1 counterexample: on a document whose two non-empty lines are both
`John Smith 152`, the primary pass finds nothing, the fallback pass pushes the
same (name, weightClass) pair twice without any duplicate check, and the
returned athletes list therefore contains two identical entries. -/
theorem c1_counterexample :
    (extract (("2024-01-01").toList) sampleDup).athletes =
      [fallbackRec (("John Smith").toList) (("152").toList),
       fallbackRec (("John Smith").toList) (("152").toList)] ∧
    ¬ (((extract (("2024-01-01").toList) sampleDup).athletes.map
        (fun a => (a.name, a.weightClass))).Nodup) := by
  constructor
  · decide
  · decide

/-- Claim C1 (amended): de-duplication on the (name, weightClass) pair is
applied at insertion time in the primary weight-anchored pass only, so
whenever the primary pass produced the output (it yielded at least one
record), the athletes list contains no two entries with an identical
(name, weightClass) pair; the fallback pass inserts without de-duplication
and can emit duplicates. -/
theorem c1_primary_nodup (today text : List Char)
    (h : primaryLoop (linesOf text) [] ≠ []) :
    (((extract today text).athletes).map (fun a => (a.name, a.weightClass))).Nodup := by
  have hp : (extract today text).athletes = primaryLoop (linesOf text) [] := by
    show athletesOf (linesOf text) = _
    rw [athletesOf, if_neg h]
  rw [hp]
  exact primaryLoop_nodup (by simp)

/-- Witness for the amended claim C1 at the primary-pass scenario input. -/
theorem c1_witness :
    (((extract (("2024-01-01").toList) sampleT7).athletes).map
      (fun a => (a.name, a.weightClass))).Nodup :=
  c1_primary_nodup (("2024-01-01").toList) sampleT7 (by decide)

/-- Claim C2: the extraction step is total (a Lean function by construction,
it never raises), and on any text whose split-and-filter produces no lines at
all it returns the documented worst case: default competition name, the
current date, no athletes, and no raw lines. -/
theorem c2_no_lines_default (today text : List Char) (h : linesOf text = []) :
    extract today text =
      { athletes := []
        competitionName := ("Wrestling Competition").toList
        date := today
        results := [] } := by
  rw [extract, h]
  rfl

/-- Witness for claim C2 at the empty document. -/
theorem c2_witness :
    extract (("2024-05-01").toList) (("").toList) =
      { athletes := []
        competitionName := ("Wrestling Competition").toList
        date := ("2024-05-01").toList
        results := [] } :=
  c2_no_lines_default (("2024-05-01").toList) (("").toList) (by decide)

/-- Claim C3: the fallback pass is strictly a zero-result trigger — when the
primary weight-anchored pass yields at least one record the output is exactly
the primary-pass records (no fallback record appears), and when it yields
zero records the output is exactly the fallback-pass records. -/
theorem c3_fallback_only_on_empty (today text : List Char) :
    (primaryLoop (linesOf text) [] ≠ [] →
      (extract today text).athletes = primaryLoop (linesOf text) []) ∧
    (primaryLoop (linesOf text) [] = [] →
      (extract today text).athletes = fallbackLoop (linesOf text) []) := by
  constructor
  · intro h
    show athletesOf (linesOf text) = _
    rw [athletesOf, if_neg h]
  · intro h
    show athletesOf (linesOf text) = _
    rw [athletesOf, if_pos h, h]

/-- Witness for claim C3 at the primary-pass scenario input. -/
theorem c3_witness :
    (extract (("2024-01-01").toList) sampleT7).athletes =
      primaryLoop (linesOf sampleT7) [] :=
  (c3_fallback_only_on_empty (("2024-01-01").toList) sampleT7).1 (by decide)

/-- Claim C4 counterexample: `extract` is not a pure function of the text
alone — on a text with no date pattern, the date field echoes the current
date, so two invocations on identical input at two different dates differ. -/
theorem c4_counterexample :
    extract (("2024-01-01").toList) (("no date here").toList) ≠
      extract (("2024-01-02").toList) (("no date here").toList) := by
  decide

/-- Claim C4 (amended): `extract` is a pure function of the input text and of
the current date; the athletes, competition name and raw-lines fields never
depend on the invocation time, and whenever a date pattern is found within
the first ten lines the whole result (its date field included) is independent
of the invocation time. -/
theorem c4_pure_function (d1 d2 text : List Char) :
    (extract d1 text).athletes = (extract d2 text).athletes ∧
    (extract d1 text).competitionName = (extract d2 text).competitionName ∧
    (extract d1 text).results = (extract d2 text).results ∧
    (findDate ((linesOf text).take 10) ≠ none → extract d1 text = extract d2 text) := by
  refine ⟨rfl, rfl, rfl, ?_⟩
  intro h
  cases hf : findDate ((linesOf text).take 10) with
  | none => exact absurd hf h
  | some d =>
    obtain ⟨l, hl⟩ := findDate_some_src hf
    have hne := dateMatch_ne_nil hl
    have hd : ∀ t, dateOf t (linesOf text) = d := by
      intro t
      simp only [dateOf, hf]
      rw [if_neg hne]
    rw [extract, extract, hd d1, hd d2]

/-- Witness for the amended claim C4 at a dated input. -/
theorem c4_witness :
    extract (("2024-01-01").toList) sampleDate =
      extract (("2024-01-02").toList) sampleDate :=
  (c4_pure_function (("2024-01-01").toList) (("2024-01-02").toList) sampleDate).2.2.2
    (by decide)

/-- Claim C5 counterexample: the line `152` contains a 1-3-digit number (the
spec marker, whose `lb`/`lbs` suffix is optional) yet the source's weight
regex does not match it; and on an input whose only name sits on the tenth
line after a `45 lbs` marker, the pass described by the claim (ten-line
window) finds an athlete while the source (nine-line window) returns none. -/
theorem c5_counterexample :
    (specWeightMarkerB (("152").toList) = true ∧ weightMatch (("152").toList) = none) ∧
    specPrimaryLoop (linesOf sampleWin) [] ≠ [] ∧
    primaryLoop (linesOf sampleWin) [] = [] ∧
    (extract (("2024-01-01").toList) sampleWin).athletes = [] := by
  refine ⟨⟨?_, ?_⟩, ?_, ?_, ?_⟩ <;> decide

/-- Claim C5 (amended): in the primary pass a lookahead window is opened at a
line if and only if the line contains a 2-3-digit number followed by optional
whitespace and a mandatory case-insensitive `lb`/`lbs` suffix, and the opened
window spans the nine lines following the marker line (fewer at the end of
input). -/
theorem c5_marker_and_window (line : List Char) (rest : List (List Char))
    (acc : List AthleteRecord) :
    ((weightMatch line).isSome = true ↔ MarkerIn line) ∧
    (∀ d, weightMatch line = some d →
      primaryLoop (line :: rest) acc =
        primaryLoop rest (scanWindow (d ++ (" lbs").toList) (rest.take 9) acc)) ∧
    (weightMatch line = none → primaryLoop (line :: rest) acc = primaryLoop rest acc) := by
  refine ⟨weightMatch_isSome_iff line, ?_, ?_⟩
  · intro d h
    rw [primaryLoop, h]
  · intro h
    rw [primaryLoop, h]

/-- Witness for the amended claim C5 at the marker line `152 lbs`. -/
theorem c5_witness :
    MarkerIn (("152 lbs").toList) ∧
    primaryLoop [("152 lbs").toList] [] =
      primaryLoop [] (scanWindow ((("152").toList) ++ (" lbs").toList)
        (([] : List (List Char)).take 9) []) := by
  constructor
  · exact (c5_marker_and_window (("152 lbs").toList) [] []).1.mp (by decide)
  · exact (c5_marker_and_window (("152 lbs").toList) [] []).2.1 (("152").toList) (by decide)

/-- Claim C6: when no line among the first ten non-empty lines matches the
date regex the returned date is the current date, and when the first ten
lines split as clean lines, then a line whose date regex yields `d`, the
returned date is that first match `d` verbatim. -/
theorem c6_date_selection (today text : List Char) :
    ((∀ l ∈ (linesOf text).take 10, dateMatch l = none) →
      (extract today text).date = today) ∧
    (∀ ls1 l ls2 d, (linesOf text).take 10 = ls1 ++ l :: ls2 →
      (∀ l' ∈ ls1, dateMatch l' = none) → dateMatch l = some d →
      (extract today text).date = d) := by
  constructor
  · intro h
    show dateOf today (linesOf text) = today
    simp only [dateOf, findDate_eq_none h]
  · intro ls1 l ls2 d hsplit h1 h2
    have hf : findDate ((linesOf text).take 10) = some d := by
      rw [hsplit]
      exact findDate_append_some h1 h2
    show dateOf today (linesOf text) = d
    simp only [dateOf, hf]
    rw [if_neg (dateMatch_ne_nil h2)]

/-- Witness for claim C6: the scenario line `Regional Duals 3/14/2024` yields
the date `3/14/2024` verbatim. -/
theorem c6_witness :
    (extract (("2024-01-01").toList) sampleDate).date = ("3/14/2024").toList :=
  (c6_date_selection (("2024-01-01").toList) sampleDate).2 []
    (("Regional Duals 3/14/2024").toList) [("other content").toList]
    (("3/14/2024").toList) (by decide) (by decide) (by decide)

/-- Claim C7: on the primary-pass scenario input, extraction returns exactly
one athlete record with name `John Smith`, weight class `152 lbs`, placement
1, wins 5, losses 2, one pin, and the competition name `Regional Duals`. -/
theorem c7_primary_scenario (today : List Char) :
    (extract today sampleT7).athletes =
      [{ name := ("John Smith").toList
         weightClass := ("152 lbs").toList
         placement := some 1
         wins := some 5
         losses := some 2
         pins := some 1
         takedowns := some 0 }] ∧
    (extract today sampleT7).competitionName = ("Regional Duals").toList :=
  ⟨rfl, rfl⟩

/-- Claim C8: on the fallback-pass scenario input (no explicit `lbs` marker
anywhere), the primary pass yields nothing and extraction returns exactly one
minimal record `John Smith` at `152 lbs` with placement, wins, losses and
pins all absent. -/
theorem c8_fallback_scenario (today : List Char) :
    (extract today sampleT8).athletes =
      [{ name := ("John Smith").toList
         weightClass := ("152 lbs").toList
         placement := none
         wins := none
         losses := none
         pins := none
         takedowns := none }] ∧
    primaryLoop (linesOf sampleT8) [] = [] :=
  ⟨rfl, rfl⟩

/-- Claim C9 counterexample: a fallback-produced record carries no takedowns
field at all (`undefined` in the source, `none` here), not the value 0, so
the takedowns field does not equal 0 on every returned record. -/
theorem c9_counterexample :
    ((extract (("2024-01-01").toList) sampleT8).athletes.map
      (fun a => a.takedowns) = [none]) ∧
    ¬ (∀ a ∈ (extract (("2024-01-01").toList) sampleT8).athletes,
        a.takedowns = some 0) := by
  constructor
  · decide
  · decide

/-- Claim C9 (amended): the takedowns field is never populated with a nonzero
value — every returned record carries either takedowns 0 (primary-pass
records) or no takedowns field at all (fallback-pass records), and whenever
the primary pass produced the output every record carries takedowns 0. -/
theorem c9_takedowns (today text : List Char) :
    (∀ a ∈ (extract today text).athletes,
      a.takedowns = some 0 ∨ a.takedowns = none) ∧
    (primaryLoop (linesOf text) [] ≠ [] →
      ∀ a ∈ (extract today text).athletes, a.takedowns = some 0) := by
  constructor
  · intro a ha
    rcases athletesOf_mem ha with ⟨wc, l, nm, _, ha'⟩ | ⟨l, nm, d, _, _, ha'⟩
    · rw [ha']; exact Or.inl rfl
    · rw [ha']; exact Or.inr rfl
  · intro h a ha
    have hp : (extract today text).athletes = primaryLoop (linesOf text) [] := by
      show athletesOf (linesOf text) = _
      rw [athletesOf, if_neg h]
    rw [hp] at ha
    rcases primaryLoop_mem ha with hin | ⟨wc, l, nm, _, ha'⟩
    · simp at hin
    · rw [ha']; rfl

/-- Witness for the amended claim C9 at the fallback scenario record. -/
theorem c9_witness :
    (fallbackRec (("John Smith").toList) (("152").toList)).takedowns = some 0 ∨
    (fallbackRec (("John Smith").toList) (("152").toList)).takedowns = none :=
  (c9_takedowns (("2024-01-01").toList) sampleT8).1
    (fallbackRec (("John Smith").toList) (("152").toList)) (by decide)

/-- Claim C10: every record produced by either pass takes its name from a
match of the regex `[A-Z][a-z]+\s+[A-Z][a-z]+`, so the name is exactly two
words separated by whitespace, each one uppercase letter followed by one or
more lowercase letters. -/
theorem c10_name_shape (today text : List Char) (a : AthleteRecord)
    (ha : a ∈ (extract today text).athletes) : nameShapeB a.name = true := by
  rcases athletesOf_mem ha with ⟨wc, l, nm, hn, ha'⟩ | ⟨l, nm, d, hn, _, ha'⟩
  · obtain ⟨pre, s, _, hs⟩ := firstMatch_some hn
    rw [ha']
    exact nameAt_shape hs
  · obtain ⟨pre, s, _, hs⟩ := firstMatch_some hn
    rw [ha']
    exact nameAt_shape hs

/-- Witness for claim C10 at the fallback scenario record. -/
theorem c10_witness : nameShapeB (("John Smith").toList) = true :=
  c10_name_shape (("2024-01-01").toList) sampleT8
    (fallbackRec (("John Smith").toList) (("152").toList)) (by decide)
